import Mathlib

/-!
Verification of the autogen group-chat application (`llm.python.py`).

The development shallowly embeds the two subsystems the specification is
about: the custom code executor (`NotebookExecutor.execute_code_blocks`)
and the speaker-selection function (`custom_speaker_selection_func`),
together with a spec-modelled orchestration round loop.  Python's `exec`
is modelled as a pluggable backend that, given a source string and a
globals environment, returns the updated environment together with an
outcome (stdout text, stderr text, and either normal completion or a
raised `Exception` rendered as its message string).
-/

/-- The globals dictionary passed to `exec`, modelled as an association
list from variable names to (string-rendered) values. -/
abbrev PyEnv := List (String × String)

/-- The fresh empty dictionary `exec_globals = {}` created for each block. -/
def emptyEnv : PyEnv := []

/-- Observable outcome of running one source string with `exec`: the text
written to the standard output and standard error streams, and either
normal completion (`Except.ok`) or a raised `Exception` carrying its
message (`Except.error`).  Process-control signals outside the `Exception`
hierarchy are not modelled. -/
structure PyExecOutcome where
  stdout : String
  stderr : String
  result : Except String Unit

/-- A Python evaluation backend: `run source globals` models
`exec(source, globals)`, returning the mutated globals and the outcome. -/
structure PyBackend where
  run : String → PyEnv → PyEnv × PyExecOutcome

/-- The `autogen.coding.CodeBlock` type: a fenced code fragment. -/
structure CodeBlock where
  code : String
  language : String
deriving DecidableEq

/-- The `autogen.coding.CodeResult` type: aggregated result of executing a list of
code blocks. -/
structure CodeResult where
  exit_code : Int
  output : String
deriving DecidableEq

/-- One loop iteration's call `exec(code_block.code, exec_globals)` with a
fresh `exec_globals = {}`; the mutated globals are discarded, only normal
completion or the raised exception is observed. -/
def execPyBlock (b : PyBackend) (code : String) : Except String Unit :=
  (b.run code emptyEnv).2.result

/-- The loop body of `NotebookExecutor.execute_code_blocks`, with the
accumulated `log` and current `exit_code` made explicit. -/
def execLoop (b : PyBackend) (log : String) (exit_code : Int) :
    List CodeBlock → CodeResult
  | [] => { exit_code := exit_code, output := log }
  | cb :: rest =>
    let log1 := log ++ cb.code ++ "\n"
    match execPyBlock b cb.code with
    | Except.ok _ =>
        execLoop b (log1 ++ "Executed code block successfully.\n") exit_code rest
    | Except.error e =>
        execLoop b (log1 ++ "Error executing code block: " ++ e ++ "\n") 1 rest

/-- The method `NotebookExecutor.execute_code_blocks`: starts with `log = ""` and
`exit_code = 0` and folds the loop body over the blocks. -/
def execute_code_blocks (b : PyBackend) (code_blocks : List CodeBlock) : CodeResult :=
  execLoop b "" 0 code_blocks

/-- Whether executing this block's code (on a fresh globals dictionary)
raises an exception. -/
def fragmentFails (b : PyBackend) (cb : CodeBlock) : Bool :=
  match execPyBlock b cb.code with
  | Except.ok _ => false
  | Except.error _ => true

/-- The text one block contributes to the aggregated log: its raw source,
then either the success message or the error message. -/
def blockLog (b : PyBackend) (cb : CodeBlock) : String :=
  cb.code ++ "\n" ++
    match execPyBlock b cb.code with
    | Except.ok _ => "Executed code block successfully.\n"
    | Except.error e => "Error executing code block: " ++ e ++ "\n"

/-- Concatenation of the per-block log contributions, in order. -/
def blocksLog (b : PyBackend) : List CodeBlock → String
  | [] => ""
  | cb :: rest => blockLog b cb ++ blocksLog b rest

theorem execLoop_characterization (b : PyBackend) (blocks : List CodeBlock) :
    ∀ (log : String) (ec : Int),
      execLoop b log ec blocks =
        { exit_code := if blocks.any (fragmentFails b) then 1 else ec,
          output := log ++ blocksLog b blocks } := by
  induction blocks with
  | nil =>
      intro log ec
      simp [execLoop, blocksLog]
  | cons cb rest ih =>
      intro log ec
      cases hc : execPyBlock b cb.code with
      | ok u =>
          simp only [execLoop, hc, blocksLog, blockLog, List.any_cons, fragmentFails]
          rw [ih]
          simp only [String.append_assoc]
          congr 1
      | error e =>
          simp only [execLoop, hc, blocksLog, blockLog, List.any_cons, fragmentFails]
          rw [ih]
          simp only [String.append_assoc]
          congr 1
          simp

theorem execute_code_blocks_characterization (b : PyBackend)
    (blocks : List CodeBlock) :
    execute_code_blocks b blocks =
      { exit_code := if blocks.any (fragmentFails b) then 1 else 0,
        output := blocksLog b blocks } := by
  rw [execute_code_blocks, execLoop_characterization]
  simp

/-- Claim C1: under the continue-on-error policy of
`NotebookExecutor.execute_code_blocks`, every fragment is executed
regardless of prior failures and contributes its outcome text to the log
(a raised error is captured as the error message, marking the fragment
failed); the aggregated exit code is 1 (failure) exactly when some
fragment failed and 0 (success) otherwise; and the empty sequence yields
success with empty captured output. -/
theorem continue_on_error_policy (b : PyBackend) (blocks : List CodeBlock) :
    execute_code_blocks b blocks =
      { exit_code := if blocks.any (fragmentFails b) then 1 else 0,
        output := blocksLog b blocks } ∧
    execute_code_blocks b [] = { exit_code := 0, output := "" } := by
  refine ⟨execute_code_blocks_characterization b blocks, ?_⟩
  rw [execute_code_blocks_characterization]
  simp [blocksLog]

/-- Claim C9: the function `execute_code_blocks` is total and its exit code is always 0 or 1;
a raised exception never escapes the loop (the `except` branch converts it
to captured text, which is reflected in the embedding returning a plain
`CodeResult`). -/
theorem execute_code_blocks_exit_code_total (b : PyBackend)
    (blocks : List CodeBlock) :
    (execute_code_blocks b blocks).exit_code = 0 ∨
      (execute_code_blocks b blocks).exit_code = 1 := by
  rw [execute_code_blocks_characterization]
  by_cases h : blocks.any (fragmentFails b) = true
  · right
    simp [h]
  · left
    simp [h]

theorem blockLog_congr (b1 b2 : PyBackend)
    (h : ∀ code : String, execPyBlock b1 code = execPyBlock b2 code)
    (cb : CodeBlock) : blockLog b1 cb = blockLog b2 cb := by
  rw [blockLog, blockLog, h]

theorem blocksLog_congr (b1 b2 : PyBackend)
    (h : ∀ code : String, execPyBlock b1 code = execPyBlock b2 code) :
    ∀ blocks : List CodeBlock, blocksLog b1 blocks = blocksLog b2 blocks := by
  intro blocks
  induction blocks with
  | nil => rfl
  | cons cb rest ih =>
      rw [blocksLog, blocksLog, ih, blockLog_congr b1 b2 h]

theorem fragmentFails_congr (b1 b2 : PyBackend)
    (h : ∀ code : String, execPyBlock b1 code = execPyBlock b2 code)
    (cb : CodeBlock) : fragmentFails b1 cb = fragmentFails b2 cb := by
  rw [fragmentFails, fragmentFails, h]

theorem execute_code_blocks_congr (b1 b2 : PyBackend)
    (h : ∀ code : String, execPyBlock b1 code = execPyBlock b2 code)
    (blocks : List CodeBlock) :
    execute_code_blocks b1 blocks = execute_code_blocks b2 blocks := by
  rw [execute_code_blocks_characterization, execute_code_blocks_characterization,
    blocksLog_congr b1 b2 h]
  have hany : ∀ l : List CodeBlock,
      l.any (fragmentFails b1) = l.any (fragmentFails b2) := by
    intro l
    induction l with
    | nil => rfl
    | cons hd tl ih =>
        rw [List.any_cons, List.any_cons, ih, fragmentFails_congr b1 b2 h hd]
  rw [hany]

/-- Claim C4 fails on the code: the aggregated result of `execute_code_blocks`
is invariant under arbitrary changes to the stdout and stderr text the
fragments produce (only the raised-exception channel is observed), so the
executor does not capture a fragment's standard output or standard error
into its outcome. -/
theorem captured_output_ignores_streams (b1 b2 : PyBackend)
    (h : ∀ code : String, execPyBlock b1 code = execPyBlock b2 code)
    (blocks : List CodeBlock) :
    execute_code_blocks b1 blocks = execute_code_blocks b2 blocks :=
  execute_code_blocks_congr b1 b2 h blocks

/-- A backend on which every fragment succeeds and prints `42` to stdout. -/
def loudBackend : PyBackend :=
  { run := fun _ env =>
      (env, { stdout := "42\n", stderr := "", result := Except.ok () }) }

/-- A backend on which every fragment succeeds and prints nothing. -/
def quietBackend : PyBackend :=
  { run := fun _ env =>
      (env, { stdout := "", stderr := "", result := Except.ok () }) }

theorem captured_output_ignores_streams_witness :
    execute_code_blocks loudBackend [{ code := "print(6*7)", language := "python" }] =
      execute_code_blocks quietBackend [{ code := "print(6*7)", language := "python" }] :=
  captured_output_ignores_streams loudBackend quietBackend (fun _ => rfl)
    [{ code := "print(6*7)", language := "python" }]

/-- Claim C7: isolation of the evaluation contexts.  Every fragment is executed
against the fresh empty globals dictionary `exec_globals = {}` and the
mutated dictionary is discarded, so the result of `execute_code_blocks`
depends only on each fragment's outcome on the empty environment: two
backends that agree there (however much they differ on non-empty
environments or in the environments they produce) yield identical results,
i.e. no state set by one fragment is visible to a later one. -/
theorem fresh_context_no_state_leak (b1 b2 : PyBackend)
    (h : ∀ code : String, (b1.run code emptyEnv).2 = (b2.run code emptyEnv).2)
    (blocks : List CodeBlock) :
    execute_code_blocks b1 blocks = execute_code_blocks b2 blocks :=
  execute_code_blocks_congr b1 b2
    (fun code => by rw [execPyBlock, execPyBlock, h]) blocks

/-- A backend that records a binding into the globals it returns and
raises a `NameError` whenever it is started on a non-empty globals
dictionary (i.e. whenever earlier state would be visible). -/
def recordingBackend : PyBackend :=
  { run := fun code env =>
      ((code, "defined") :: env,
       { stdout := "", stderr := "",
         result := if env = emptyEnv then Except.ok () else Except.error "NameError" }) }

/-- The same backend except that it discards the binding it made. -/
def discardingBackend : PyBackend :=
  { run := fun code env =>
      (env,
       { stdout := "", stderr := "",
         result := if env = emptyEnv then Except.ok () else Except.error "NameError" }) }

theorem fresh_context_no_state_leak_witness :
    execute_code_blocks recordingBackend
        [{ code := "x = 1", language := "python" },
         { code := "y = 2", language := "python" }] =
      execute_code_blocks discardingBackend
        [{ code := "x = 1", language := "python" },
         { code := "y = 2", language := "python" }] :=
  fresh_context_no_state_leak recordingBackend discardingBackend (fun _ => rfl)
    [{ code := "x = 1", language := "python" },
     { code := "y = 2", language := "python" }]

theorem string_append_ne_empty_right (s t : String) (ht : t ≠ "") :
    s ++ t ≠ "" := by
  intro hcontra
  apply ht
  have hdata : (s ++ t).data = ([] : List Char) := congrArg String.data hcontra
  rw [String.data_append] at hdata
  have h2 : t.data = [] := (List.append_eq_nil.mp hdata).2
  cases t with
  | mk l =>
      cases h2
      rfl

theorem string_append_ne_empty_left (s t : String) (hs : s ≠ "") :
    s ++ t ≠ "" := by
  intro hcontra
  apply hs
  have hdata : (s ++ t).data = ([] : List Char) := congrArg String.data hcontra
  rw [String.data_append] at hdata
  have h2 : s.data = [] := (List.append_eq_nil.mp hdata).1
  cases s with
  | mk l =>
      cases h2
      rfl

theorem blockLog_decompose (b : PyBackend) (cb : CodeBlock) :
    ∃ t : String, blockLog b cb = cb.code ++ t ∧ t ≠ "" := by
  refine ⟨"\n" ++
      (match execPyBlock b cb.code with
        | Except.ok _ => "Executed code block successfully.\n"
        | Except.error e => "Error executing code block: " ++ e ++ "\n"),
    ?_, ?_⟩
  · rw [blockLog, String.append_assoc]
  · apply string_append_ne_empty_left
    decide

theorem blocksLog_mem_decompose (b : PyBackend) :
    ∀ (blocks : List CodeBlock) (cb : CodeBlock), cb ∈ blocks →
      ∃ s t : String, blocksLog b blocks = s ++ (cb.code ++ t) := by
  intro blocks
  induction blocks with
  | nil => intro cb hcb; exact absurd hcb (List.not_mem_nil cb)
  | cons hd rest ih =>
      intro cb hcb
      rcases List.mem_cons.mp hcb with heq | hmem
      · subst heq
        obtain ⟨t, ht, -⟩ := blockLog_decompose b cb
        refine ⟨"", t ++ blocksLog b rest, ?_⟩
        rw [blocksLog, ht, String.append_assoc, String.empty_append]
      · obtain ⟨s, t, hst⟩ := ih cb hmem
        exact ⟨blockLog b hd ++ s, t,
          by rw [blocksLog, hst, String.append_assoc]⟩

theorem blocksLog_cons_ne_empty (b : PyBackend) (hd : CodeBlock)
    (rest : List CodeBlock) : blocksLog b (hd :: rest) ≠ "" := by
  rw [blocksLog]
  apply string_append_ne_empty_left
  obtain ⟨t, ht, htne⟩ := blockLog_decompose b hd
  rw [ht]
  exact string_append_ne_empty_right hd.code t htne

/-- Claim C10: the aggregated captured output contains the raw source text of
every fragment of the input (each fragment's code is appended to the log
before it is executed, whatever its outcome), so the output of a non-empty
fragment sequence is never empty. -/
theorem output_contains_every_fragment (b : PyBackend) (blocks : List CodeBlock) :
    (∀ cb ∈ blocks, ∃ s t : String,
        (execute_code_blocks b blocks).output = s ++ (cb.code ++ t)) ∧
    (blocks ≠ [] → (execute_code_blocks b blocks).output ≠ "") := by
  rw [execute_code_blocks_characterization]
  constructor
  · intro cb hcb
    exact blocksLog_mem_decompose b blocks cb hcb
  · intro hne
    cases blocks with
    | nil => exact absurd rfl hne
    | cons hd rest => exact blocksLog_cons_ne_empty b hd rest

theorem output_contains_every_fragment_witness :
    (∃ s t : String,
        (execute_code_blocks quietBackend
            [{ code := "x = 1", language := "python" }]).output =
          s ++ ("x = 1" ++ t)) ∧
    (execute_code_blocks quietBackend
        [{ code := "x = 1", language := "python" }]).output ≠ "" :=
  ⟨(output_contains_every_fragment quietBackend
        [{ code := "x = 1", language := "python" }]).1
      { code := "x = 1", language := "python" } (List.mem_singleton.mpr rfl),
   (output_contains_every_fragment quietBackend
        [{ code := "x = 1", language := "python" }]).2 (by decide)⟩

/-- An `autogen.ConversableAgent`, reduced to its identity: agents are unique
by name and compared by identity in the source; the name stands in for the
object. -/
structure ConversableAgent where
  name : String
deriving DecidableEq

def aws_agent : ConversableAgent := { name := "aws_agent" }

def github_agent : ConversableAgent := { name := "github_agent" }

def manager_agent : ConversableAgent := { name := "manager_agent" }

def data_decision_agent : ConversableAgent := { name := "data_decision_agent" }

def datadog_agent : ConversableAgent := { name := "datadog_agent" }

def committer_agent : ConversableAgent := { name := "committer_agent" }

def verifier_agent : ConversableAgent := { name := "verifier_agent" }

def submission_agent : ConversableAgent := { name := "submission_agent" }

/-- The parts of `autogen.GroupChat` the selector's signature exposes:
the ordered participant list, the message log and the round bound. -/
structure GroupChat where
  agents : List ConversableAgent
  messages : List String
  max_round : Nat
deriving DecidableEq

/-- The hardcoded `priority_order` list built inside
`custom_speaker_selection_func`. -/
def priority_order : List ConversableAgent :=
  [manager_agent, data_decision_agent, aws_agent, github_agent,
   datadog_agent, committer_agent, verifier_agent, submission_agent]

/-- The function `custom_speaker_selection_func(last_speaker, groupchat)`: if the last
speaker occurs in `priority_order`, return the entry one past its (first)
index, cyclically; otherwise return `None` (modelled as `none`),
terminating the chat. -/
def custom_speaker_selection_func (last_speaker : ConversableAgent)
    (gc : GroupChat) : Option ConversableAgent :=
  if h : last_speaker ∈ priority_order then
    some (priority_order.get
      ⟨(priority_order.indexOf last_speaker + 1) % priority_order.length,
       Nat.mod_lt _ (by decide)⟩)
  else
    none

/-- The `GroupChat(...)` value constructed in the source: its `agents`
list fixes the participants, in this order, at conversation start. -/
def groupchat : GroupChat :=
  { agents := [aws_agent, github_agent, manager_agent, data_decision_agent,
               datadog_agent, committer_agent, verifier_agent, submission_agent],
    messages := [],
    max_round := 50 }

/-- Claim C2 fails on the code at `github_agent`: the groupchat participant list
fixed at conversation start places `github_agent` at index 1 and
`manager_agent` at index (1+1) mod 8, yet the selector returns
`datadog_agent`, because its cyclic order is the differently ordered
hardcoded `priority_order` list. -/
theorem selection_not_groupchat_order :
    github_agent ∈ groupchat.agents ∧
    groupchat.agents.indexOf github_agent = 1 ∧
    groupchat.agents[(1 + 1) % groupchat.agents.length]? = some manager_agent ∧
    custom_speaker_selection_func github_agent groupchat = some datadog_agent ∧
    datadog_agent ≠ manager_agent := by
  refine ⟨by decide, by decide, by decide, ?_, by decide⟩
  rw [custom_speaker_selection_func, dif_pos (by decide)]
  decide

/-- Claim C2, amended: for a last speaker at index `i` of the selector's own
`priority_order` registry, the selector returns the participant at index
`(i+1) mod n` of `priority_order`; that list contains the same eight
agents as the groupchat participant list fixed at conversation start, but
in a different order. -/
theorem selection_cycles_priority_order (i : Fin priority_order.length) :
    custom_speaker_selection_func (priority_order.get i) groupchat =
      priority_order[((i : Nat) + 1) % priority_order.length]? := by
  revert i
  decide

theorem mem_priority_iff_mem_groupchat (a : ConversableAgent) :
    a ∈ priority_order ↔ a ∈ groupchat.agents := by
  rw [priority_order, groupchat]
  simp only [List.mem_cons, List.not_mem_nil, or_false]
  tauto

/-- Claim C6: a last speaker absent from the conversation's participant registry
makes `custom_speaker_selection_func` return `None` (the terminate
signal); this is an ordinary return value of the function, not a raised
error. -/
theorem absent_speaker_terminates (a : ConversableAgent) (gc : GroupChat)
    (h : a ∉ groupchat.agents) :
    custom_speaker_selection_func a gc = none := by
  have hp : a ∉ priority_order := fun hmem =>
    h ((mem_priority_iff_mem_groupchat a).mp hmem)
  rw [custom_speaker_selection_func, dif_neg hp]

theorem absent_speaker_terminates_witness :
    ({ name := "chat_manager" } : ConversableAgent) ∉ groupchat.agents ∧
    custom_speaker_selection_func { name := "chat_manager" } groupchat = none :=
  ⟨by decide,
   absent_speaker_terminates { name := "chat_manager" } groupchat (by decide)⟩

/-- Claim C8: the selector is deterministic and side-effect free.  Its output is
a function of `last_speaker` alone: two calls with identical inputs agree,
and the result does not change with the conversation state (which the
function neither reads nor, being a pure function of its arguments in this
embedding of a mutation-free Python body, writes). -/
theorem selection_deterministic_and_pure (a : ConversableAgent)
    (gc gc' : GroupChat) :
    custom_speaker_selection_func a gc = custom_speaker_selection_func a gc ∧
    custom_speaker_selection_func a gc = custom_speaker_selection_func a gc' :=
  ⟨rfl, rfl⟩

/-- Conversation phase of the orchestration state machine. -/
inductive Phase where
  | Running
  | AwaitingHumanInput
  | Terminated
deriving DecidableEq

/-- Modelled from the spec: the `ConversationState` driven by the
orchestration round loop (the loop itself lives in the autogen library's
`GroupChatManager`, not in this repository's source file; only its
configuration — the agents, the selector and `max_round = 50` — is in the
source). -/
structure OrchState where
  round : Nat
  maxRounds : Nat
  phase : Phase
  lastSpeaker : ConversableAgent
  log : List String
deriving DecidableEq

/-- Modelled from the spec: one completed turn of the orchestration loop
(spec section 4.4), instantiated with this program's configuration.  The
current speaker's message (supplied by the external text-generation
collaborator as the oracle `msgs`) is appended to the log and the round
incremented; since every agent is constructed with
`human_input_mode="NEVER"` and no termination predicate, the
await-human-input rule never fires; then the loop terminates when the
round has reached the bound and otherwise consults
`custom_speaker_selection_func`, terminating if it returns `none`. -/
def orchStep (msgs : Nat → String) (s : OrchState) : OrchState :=
  match s.phase with
  | Phase.Terminated => s
  | Phase.AwaitingHumanInput => s
  | Phase.Running =>
    let log1 := s.log ++ [msgs s.round]
    let r1 := s.round + 1
    if r1 ≥ s.maxRounds then
      { s with log := log1, round := r1, phase := Phase.Terminated }
    else
      match custom_speaker_selection_func s.lastSpeaker groupchat with
      | none => { s with log := log1, round := r1, phase := Phase.Terminated }
      | some a => { s with log := log1, round := r1, lastSpeaker := a }

/-- Iterate the round loop `n` turns. -/
def orchRun (msgs : Nat → String) : Nat → OrchState → OrchState
  | 0, s => s
  | n + 1, s => orchRun msgs n (orchStep msgs s)

/-- The initial conversation state: round 0, running, seeded with a
designated start speaker. -/
def initState (maxRounds : Nat) (startSpeaker : ConversableAgent) : OrchState :=
  { round := 0, maxRounds := maxRounds, phase := Phase.Running,
    lastSpeaker := startSpeaker, log := [] }

theorem selector_stays_in_registry (a : ConversableAgent)
    (ha : a ∈ priority_order) :
    ∃ b, custom_speaker_selection_func a groupchat = some b ∧
      b ∈ priority_order := by
  rw [custom_speaker_selection_func, dif_pos ha]
  exact ⟨_, rfl, List.get_mem _ _ _⟩

theorem orchStep_running_round (msgs : Nat → String) (s : OrchState)
    (h : s.phase = Phase.Running) :
    (orchStep msgs s).round = s.round + 1 := by
  rw [orchStep, h]
  by_cases hge : s.round + 1 ≥ s.maxRounds
  · rw [if_pos hge]
  · rw [if_neg hge]
    cases custom_speaker_selection_func s.lastSpeaker groupchat <;> rfl

theorem orchStep_preserves (msgs : Nat → String) (s : OrchState)
    (h : s.phase = Phase.Running) (hlt : s.round + 1 < s.maxRounds)
    (ha : s.lastSpeaker ∈ priority_order) :
    (orchStep msgs s).phase = Phase.Running ∧
    (orchStep msgs s).round = s.round + 1 ∧
    (orchStep msgs s).maxRounds = s.maxRounds ∧
    (orchStep msgs s).lastSpeaker ∈ priority_order := by
  obtain ⟨b, hb, hbmem⟩ := selector_stays_in_registry s.lastSpeaker ha
  rw [orchStep, h, if_neg (Nat.not_le.mpr hlt), hb]
  exact ⟨rfl, rfl, rfl, hbmem⟩

theorem orchStep_final (msgs : Nat → String) (s : OrchState)
    (h : s.phase = Phase.Running) (heq : s.round + 1 = s.maxRounds) :
    (orchStep msgs s).phase = Phase.Terminated ∧
    (orchStep msgs s).round = s.maxRounds := by
  rw [orchStep, h, if_pos (Nat.le_of_eq heq.symm), heq]
  exact ⟨rfl, rfl⟩

theorem orchStep_terminated (msgs : Nat → String) (s : OrchState)
    (h : s.phase = Phase.Terminated) : orchStep msgs s = s := by
  rw [orchStep, h]

theorem orchRun_terminated (msgs : Nat → String) (s : OrchState)
    (h : s.phase = Phase.Terminated) :
    ∀ n, orchRun msgs n s = s := by
  intro n
  induction n with
  | zero => rfl
  | succ m ih =>
      rw [orchRun, orchStep_terminated msgs s h, ih]

theorem orchRun_add (msgs : Nat → String) :
    ∀ (m n : Nat) (s : OrchState),
      orchRun msgs (m + n) s = orchRun msgs n (orchRun msgs m s) := by
  intro m
  induction m with
  | zero =>
      intro n s
      rw [Nat.zero_add]
      rfl
  | succ k ih =>
      intro n s
      rw [Nat.succ_add, orchRun, orchRun, ih]

theorem orchRun_inv (msgs : Nat → String) :
    ∀ (m : Nat) (s : OrchState), 1 ≤ m → s.phase = Phase.Running →
      s.lastSpeaker ∈ priority_order → s.round + m = s.maxRounds →
      ((orchRun msgs m s).phase = Phase.Terminated ∧
        (orchRun msgs m s).round = s.maxRounds) ∧
      ∀ k, k < m → (orchRun msgs k s).phase = Phase.Running ∧
        (orchRun msgs k s).round = s.round + k := by
  intro m
  induction m with
  | zero => intro s h1; exact absurd h1 (by omega)
  | succ j ih =>
      intro s _ hrun hmem hsum
      by_cases hj : j = 0
      · subst hj
        have hfin := orchStep_final msgs s hrun (by omega)
        constructor
        · exact ⟨hfin.1, hfin.2⟩
        · intro k hk
          have hk0 : k = 0 := by omega
          subst hk0
          exact ⟨hrun, rfl⟩
      · have hlt : s.round + 1 < s.maxRounds := by omega
        have hpres := orchStep_preserves msgs s hrun hlt hmem
        have hsum' : (orchStep msgs s).round + j = (orchStep msgs s).maxRounds := by
          rw [hpres.2.1, hpres.2.2.1]
          omega
        have ihs := ih (orchStep msgs s) (by omega) hpres.1 hpres.2.2.2 hsum'
        constructor
        · have : orchRun msgs (j + 1) s = orchRun msgs j (orchStep msgs s) := rfl
          rw [this]
          exact ⟨ihs.1.1, by rw [ihs.1.2, hpres.2.2.1]⟩
        · intro k hk
          cases k with
          | zero => exact ⟨hrun, rfl⟩
          | succ t =>
              have : orchRun msgs (t + 1) s = orchRun msgs t (orchStep msgs s) := rfl
              rw [this]
              have htj : t < j := by omega
              refine ⟨(ihs.2 t htj).1, ?_⟩
              rw [(ihs.2 t htj).2, hpres.2.1]
              omega

/-- Claim C5: one completed turn increments the round counter by exactly 1, and
— in this program's configuration, where the start speaker is in the
registry, so `custom_speaker_selection_func` keeps returning a registry
member and never terminates the chat early — the loop seeded at round 0
is still running with round `k` after every `k < max_rounds` turns, is
terminated with round exactly `max_rounds` after `max_rounds` turns, and
stays there: it halts exactly when the round reaches `max_rounds`, never
before and never after. -/
theorem round_loop_halts_at_max (msgs : Nat → String) (R : Nat)
    (a0 : ConversableAgent) (hR : 1 ≤ R) (ha : a0 ∈ priority_order) :
    (∀ s : OrchState, s.phase = Phase.Running →
        (orchStep msgs s).round = s.round + 1) ∧
    (∀ k, k < R → (orchRun msgs k (initState R a0)).phase = Phase.Running ∧
        (orchRun msgs k (initState R a0)).round = k) ∧
    (orchRun msgs R (initState R a0)).phase = Phase.Terminated ∧
    (orchRun msgs R (initState R a0)).round = R ∧
    (∀ j, orchRun msgs (R + j) (initState R a0) =
        orchRun msgs R (initState R a0)) := by
  have hinv := orchRun_inv msgs R (initState R a0) hR rfl ha (by
    show 0 + R = R
    omega)
  refine ⟨fun s hs => orchStep_running_round msgs s hs, ?_, hinv.1.1, ?_, ?_⟩
  · intro k hk
    refine ⟨(hinv.2 k hk).1, ?_⟩
    rw [(hinv.2 k hk).2]
    show 0 + k = k
    omega
  · rw [hinv.1.2]
    rfl
  · intro j
    rw [orchRun_add, orchRun_terminated msgs _ hinv.1.1 j]

theorem round_loop_halts_at_max_witness :
    1 ≤ 2 ∧ manager_agent ∈ priority_order ∧
    (orchRun (fun _ => "") 2 (initState 2 manager_agent)).phase =
      Phase.Terminated ∧
    (orchRun (fun _ => "") 2 (initState 2 manager_agent)).round = 2 :=
  ⟨by decide, by decide,
   (round_loop_halts_at_max (fun _ => "") 2 manager_agent (by decide)
      (by decide)).2.2.1,
   (round_loop_halts_at_max (fun _ => "") 2 manager_agent (by decide)
      (by decide)).2.2.2.1⟩

/-- Modelled from the spec: the loop of the fail-fast executor policy.
The repository's source file contains only the continue-on-error
`NotebookExecutor`; the spec names fail-fast as the second policy
exhibited by other variants of the source: fragments execute in order
and, on the first failing fragment, execution stops with aggregated
status failure and the captured output of the executed fragments only.
The per-fragment log format is kept identical to the source's executor. -/
def failFastLoop (b : PyBackend) (log : String) : List CodeBlock → CodeResult
  | [] => { exit_code := 0, output := log }
  | cb :: rest =>
    let log1 := log ++ cb.code ++ "\n"
    match execPyBlock b cb.code with
    | Except.ok _ =>
        failFastLoop b (log1 ++ "Executed code block successfully.\n") rest
    | Except.error e =>
        { exit_code := 1,
          output := log1 ++ "Error executing code block: " ++ e ++ "\n" }

/-- Modelled from the spec: the fail-fast executor policy applied to a
sequence of code blocks, starting from an empty log. -/
def execute_code_blocks_fail_fast (b : PyBackend)
    (code_blocks : List CodeBlock) : CodeResult :=
  failFastLoop b "" code_blocks

theorem failFastLoop_ok_skip (b : PyBackend) :
    ∀ (pre rest : List CodeBlock) (log : String),
      (∀ cb ∈ pre, fragmentFails b cb = false) →
      failFastLoop b log (pre ++ rest) =
        failFastLoop b (log ++ blocksLog b pre) rest := by
  intro pre
  induction pre with
  | nil =>
      intro rest log _
      rw [blocksLog, String.append_empty, List.nil_append]
  | cons hd tl ih =>
      intro rest log hok
      have hhd : fragmentFails b hd = false := hok hd (List.mem_cons_self hd tl)
      rw [fragmentFails] at hhd
      cases hc : execPyBlock b hd.code with
      | ok u =>
          have : failFastLoop b log ((hd :: tl) ++ rest) =
              failFastLoop b (log ++ hd.code ++ "\n" ++
                "Executed code block successfully.\n") (tl ++ rest) := by
            rw [List.cons_append, failFastLoop.eq_2, hc]
          rw [this, ih rest _ (fun cb hcb => hok cb (List.mem_cons_of_mem hd hcb)),
            blocksLog, blockLog, hc]
          simp only [String.append_assoc]
      | error e =>
          rw [hc] at hhd
          simp at hhd

/-- Claim C3 (fail-fast policy, modelled from the spec): on a fragment sequence
whose first failure is `f` (all of `pre` succeed, `f` fails), the
fragments up to and including `f` execute in order, every fragment after
`f` is skipped, the aggregated status is failure (exit code 1), and the
captured output is exactly the log of the executed fragments
`pre ++ [f]`, independent of the skipped tail. -/
theorem fail_fast_policy (b : PyBackend) (pre post : List CodeBlock)
    (f : CodeBlock) (hpre : ∀ cb ∈ pre, fragmentFails b cb = false)
    (hf : fragmentFails b f = true) :
    execute_code_blocks_fail_fast b (pre ++ f :: post) =
      { exit_code := 1, output := blocksLog b (pre ++ [f]) } := by
  rw [execute_code_blocks_fail_fast, failFastLoop_ok_skip b pre (f :: post) "" hpre,
    String.empty_append]
  rw [fragmentFails] at hf
  cases hc : execPyBlock b f.code with
  | ok u =>
      rw [hc] at hf
      simp at hf
  | error e =>
      have hstep : failFastLoop b (blocksLog b pre) (f :: post) =
          { exit_code := 1,
            output := blocksLog b pre ++ f.code ++ "\n" ++
              "Error executing code block: " ++ e ++ "\n" } := by
        rw [failFastLoop.eq_2, hc]
      rw [hstep]
      have hlogs : ∀ l : List CodeBlock,
          blocksLog b (l ++ [f]) = blocksLog b l ++ blockLog b f := by
        intro l
        induction l with
        | nil => rw [List.nil_append, blocksLog, blocksLog, blocksLog,
            String.append_empty, String.empty_append]
        | cons x xs ihx => rw [List.cons_append, blocksLog, ihx, blocksLog,
            String.append_assoc]
      rw [hlogs, blockLog, hc]
      simp only [String.append_assoc]

/-- A backend that raises `ValueError` exactly on the source
`raise ValueError` and succeeds on everything else. -/
def vErrBackend : PyBackend :=
  { run := fun code env =>
      (env, { stdout := "", stderr := "",
              result := if code = "raise ValueError" then
                  Except.error "ValueError"
                else Except.ok () }) }

theorem fail_fast_policy_witness :
    (∀ cb ∈ [({ code := "x = 1", language := "python" } : CodeBlock)],
        fragmentFails vErrBackend cb = false) ∧
    fragmentFails vErrBackend { code := "raise ValueError", language := "python" } = true ∧
    execute_code_blocks_fail_fast vErrBackend
        ([{ code := "x = 1", language := "python" }] ++
          { code := "raise ValueError", language := "python" } ::
            [{ code := "y = 2", language := "python" }]) =
      { exit_code := 1,
        output := blocksLog vErrBackend
          ([{ code := "x = 1", language := "python" }] ++
            [{ code := "raise ValueError", language := "python" }]) } :=
  ⟨by decide, by decide,
   fail_fast_policy vErrBackend
     [{ code := "x = 1", language := "python" }]
     [{ code := "y = 2", language := "python" }]
     { code := "raise ValueError", language := "python" }
     (by decide) (by decide)⟩
